import Mathlib

/-!
Verification of the selection-overlay toolbar (`src/components/VlyToolbar.tsx`).

The development shallow-embeds the pure logic and event handlers:

* DOM elements are modelled as immutable descriptors `DomElement` carrying a
  node identity (`ref`), the `id` attribute, the tag name and the `className`
  property.  JavaScript reference equality on nodes is modelled by equality of
  the `ref` field (structural equality of descriptors).
* `getDomSelector` is the selector utility (lines 28-36 of the source).
* The Overlay handlers (`handleMouseMove`, `handleMouseLeave`, `handleClick`,
  lines 50-98) become explicit state transformers over `OverlaySt`, with the
  element resolved by `document.elementFromPoint` supplied as an input, since
  hit-testing is environment behaviour.  The transient `pointerEvents`
  on/off toggle around the hit-test is not observable afterwards and is not
  modelled.
* The controller pieces (`handleMessage`, `handleSelect`, `injectHighlightStyle`,
  the `ignoreList` memo, lines 14-26 and 118-176) become pure functions; the
  asynchronous selection sequence is modelled as the ordered trace of its
  observable actions.
-/

/-- Whitespace test used both by the model of JavaScript `String.trim` and of
the regex `\s+`.  The JavaScript class `\s` also matches some unicode spaces; the
claims only need that trim, the regex replace and the token splitting agree on
one whitespace alphabet, which they do by construction. -/
def isWs (c : Char) : Bool :=
  c == ' ' || c == '\t' || c == '\n' || c == '\r' ||
  c == Char.ofNat 11 || c == Char.ofNat 12

/-- Model of JavaScript `String.prototype.trim` on the trailing side:
remove the maximal whitespace suffix. -/
def dropTrailingWs (l : List Char) : List Char :=
  (l.reverse.dropWhile isWs).reverse

/-- Model of JavaScript `String.prototype.trim`: remove the maximal
whitespace prefix and suffix. -/
def jsTrim (l : List Char) : List Char :=
  dropTrailingWs (l.dropWhile isWs)

/-- Model of `replace(/\s+/g, ".")`: each maximal run of whitespace becomes a
single `'.'`.  The boolean flag records whether the previous character was part
of a whitespace run whose `'.'` has already been emitted. -/
def collapseWs : Bool → List Char → List Char
  | _, [] => []
  | inRun, c :: rest =>
    if isWs c then
      if inRun then collapseWs true rest
      else '.' :: collapseWs true rest
    else c :: collapseWs false rest

/-- The `className` property of a DOM element: a string for ordinary elements,
a non-string object for SVG elements (`SVGAnimatedString`), which is truthy
but fails `typeof el.className === "string"`. -/
inductive ClassNameVal where
  | strVal (s : String)
  | objVal
deriving DecidableEq

/-- A DOM element descriptor.  `ref` is the node identity (JavaScript `===`
on element objects). -/
structure DomElement where
  ref : Nat
  id : String
  tagName : String
  className : ClassNameVal
deriving DecidableEq

/-- Embedding of `getDomSelector` (source lines 28-36):
`if (el.id) return "#" + el.id;`
`if (el.className && typeof el.className === "string") return el.tagName.toLowerCase() + "." + el.className.trim().replace(/\s+/g, ".");`
`return el.tagName.toLowerCase();`
An empty-string `className` is falsy and a non-string `className` fails the
`typeof` test, so both fall through to the bare tag name. -/
def getDomSelector (el : DomElement) : String :=
  if el.id ≠ "" then "#" ++ el.id
  else
    match el.className with
    | ClassNameVal.strVal s =>
      if s ≠ "" then
        el.tagName.toLower ++ "." ++ String.mk (collapseWs false (jsTrim s.data))
      else el.tagName.toLower
    | ClassNameVal.objVal => el.tagName.toLower

/-- Spec-side definition: the whitespace-separated tokens of a character list
(maximal runs of non-whitespace characters, in their original order). -/
def wsTokens : List Char → List (List Char)
  | [] => []
  | c :: rest =>
    if isWs c then wsTokens rest
    else (c :: rest.takeWhile (fun x => !isWs x)) ::
      wsTokens (rest.dropWhile (fun x => !isWs x))
termination_by l => l.length
decreasing_by
  · simp only [List.length_cons]
    omega
  · simp only [List.length_cons]
    exact Nat.lt_succ_of_le (List.dropWhile_suffix _).sublist.length_le

/-- Spec-side definition: join tokens with a literal `'.'` separator. -/
def joinDot : List (List Char) → List Char
  | [] => []
  | [t] => t
  | t :: t2 :: ts => t ++ '.' :: joinDot (t2 :: ts)

/-- Spec-side reading of §4.1 step 2: lowercase tag name, then `"."`, then the
whitespace-separated class tokens joined by `"."`. -/
def specClassSelector (tag cls : String) : String :=
  tag.toLower ++ "." ++ String.mk (joinDot (wsTokens cls.data))

/-- Overlay state: the `lastHovered` ref together with the set of DOM elements
currently carrying `HIGHLIGHT_CLASS` (`"vly-toolbar-highlight"`). -/
structure OverlaySt where
  lastHovered : Option DomElement
  highlights : List DomElement
deriving DecidableEq

/-- Effect of `el.classList.add(HIGHLIGHT_CLASS)`: the highlighted-element set gains `e`. -/
def classAdd (hs : List DomElement) (e : DomElement) : List DomElement :=
  if e ∈ hs then hs else e :: hs

/-- Effect of `el.classList.remove(HIGHLIGHT_CLASS)`: the highlighted-element set loses `e`. -/
def classRemove (hs : List DomElement) (e : DomElement) : List DomElement :=
  hs.filter (fun x => x ≠ e)

/-- Shared step `if (lastHovered.current) lastHovered.current.classList.remove(HIGHLIGHT_CLASS)`
(source lines 62-63 and 93-94). -/
def removePrevHighlight (st : OverlaySt) : List DomElement :=
  match st.lastHovered with
  | some prev => classRemove st.highlights prev
  | none => st.highlights

/-- Embedding of `handleMouseMove` (source lines 50-70).  `target` is the result of
`document.elementFromPoint` at the event coordinates (hit-testing is
environment behaviour, so the resolved element is an input).  Returns the new
state together with the list of elements passed to `onHover`. -/
def handleMouseMove (selectMode : Bool) (ignore : List DomElement)
    (target : Option DomElement) (st : OverlaySt) : OverlaySt × List DomElement :=
  if !selectMode then (st, [])
  else
    match target with
    | none => (st, [])
    | some el =>
      if el ∈ ignore then (st, [])
      else if st.lastHovered = some el then (st, [])
      else (⟨some el, classAdd (removePrevHighlight st) el⟩, [el])

/-- Embedding of `handleMouseLeave` (source lines 72-79).  Returns the new state and whether
`onUnhover` was invoked. -/
def handleMouseLeave (selectMode : Bool) (st : OverlaySt) : OverlaySt × Bool :=
  if !selectMode then (st, false)
  else
    match st.lastHovered with
    | some prev => (⟨none, classRemove st.highlights prev⟩, true)
    | none => (st, true)

/-- Embedding of `handleClick` (source lines 81-98).  `preventDefault`/`stopPropagation`
are browser-level and not modelled.  Returns the new state and the element
passed to `onSelect` (`none` when the click is aborted).  Note: the handler
removes the highlight from `lastHovered.current` but does not clear the
reference itself. -/
def handleClick (ignore : List DomElement) (target : Option DomElement)
    (st : OverlaySt) : OverlaySt × Option DomElement :=
  match target with
  | none => (st, none)
  | some el =>
    if el ∈ ignore then (st, none)
    else (⟨st.lastHovered, removePrevHighlight st⟩, some el)

/-- A sequence of pointer-move events (each given by its resolved target),
processed in order; collects all `onHover` notifications chronologically. -/
def runMoves (selectMode : Bool) (ignore : List DomElement) :
    List (Option DomElement) → OverlaySt → OverlaySt × List DomElement
  | [], st => (st, [])
  | t :: ts, st =>
    let r1 := handleMouseMove selectMode ignore t st
    let r2 := runMoves selectMode ignore ts r1.1
    (r2.1, r1.2 ++ r2.2)

/-- The Overlay mounts with `lastHovered.current = null` (`useRef(null)`,
source line 48); no element carries the highlight class on a fresh page. -/
def mountOverlaySt : OverlaySt := ⟨none, []⟩

def optList : Option DomElement → List DomElement
  | none => []
  | some e => [e]

/-- The `data` of an inbound `message` event: `null`/absent (falsy), or an
object with a `type` field and the truthiness of its `enabled` field. -/
inductive MsgData where
  | null
  | obj (type : String) (enabled : Bool)
deriving DecidableEq

/-- Embedding of `handleMessage` (source lines 125-129):
`if (event.data && event.data.type === 'vly-set-selection-mode') setSelectMode(!!event.data.enabled)`.
Returns the new `selectMode` flag. -/
def handleMessage (d : MsgData) (selectMode : Bool) : Bool :=
  match d with
  | MsgData.null => selectMode
  | MsgData.obj t en => if t = "vly-set-selection-mode" then en else selectMode

/-- The render (source line 180) mounts the Overlay iff `selectMode`:
`{selectMode && <Overlay ... />}`. -/
def overlayMounted (selectMode : Bool) : Bool := selectMode

/-- The stylesheet state of the document: ids of mounted `<style>` elements, in
insertion order (duplicates would appear twice). -/
structure Doc where
  styleIds : List String
deriving DecidableEq

/-- Embedding of `injectHighlightStyle` (source lines 14-26): return early if
`document.getElementById("vly-toolbar-style")` finds the style element,
otherwise append a new `<style id="vly-toolbar-style">` to the head. -/
def injectHighlightStyle (d : Doc) : Doc :=
  if "vly-toolbar-style" ∈ d.styleIds then d
  else ⟨d.styleIds ++ ["vly-toolbar-style"]⟩

/-- Controller state: the `selectMode` flag plus the document styles it can
affect. -/
structure ControllerState where
  selectMode : Bool
  doc : Doc
deriving DecidableEq

/-- The mount effect (source lines 122-132): `injectHighlightStyle()` runs once
in the `useEffect`; the message listener is registered but no message has been
handled yet. -/
def mountToolbar (st : ControllerState) : ControllerState :=
  ⟨st.selectMode, injectHighlightStyle st.doc⟩

/-- One inbound `message` event: only `selectMode` can change; the document
styles are untouched (the handler never calls `injectHighlightStyle`). -/
def receiveMessage (st : ControllerState) (m : MsgData) : ControllerState :=
  ⟨handleMessage m st.selectMode, st.doc⟩

/-- Process a sequence of inbound messages in order. -/
def runMessages (st : ControllerState) (ms : List MsgData) : ControllerState :=
  ms.foldl receiveMessage st

/-- The `ignoreList` memo body (source lines 172-176), as a function of
`toolbarRef.current` at the moment the memo is computed. -/
def ignoreList (refCurrent : Option DomElement) : List DomElement :=
  match refCurrent with
  | some e => [e]
  | none => []

/-- The ignore list the mounted toolbar actually uses.  React evaluates the
`useMemo` body during the initial render, when `toolbarRef.current` is still
`null` (the `ref` is attached to the toolbar `<div>` only when that render is
committed), and the empty dependency array means the memo is never
re-evaluated afterwards. -/
def mountedIgnoreList : List DomElement := ignoreList none

/-- The outbound message posted to the parent frame (source lines 151-160).
The hierarchy fields are outputs of the external Hierarchy collaborator and
are opaque to this core; they are modelled as strings. -/
structure OutMessage where
  type : String
  selector : String
  reactHierarchy : String
  reactHierarchyFormatted : String
  image : Option String
deriving DecidableEq

/-- The observable actions of the selection-handling sequence, in order. -/
inductive ToolbarAction where
  | setSelectMode (b : Bool)
  | snapshotStart (el : DomElement)
  | logError
  | postMessage (m : OutMessage)
deriving DecidableEq

/-- Embedding of `handleSelect` (source lines 135-161) as the ordered trace of its
observable actions.  `hierarchy`/`formatted` are the outputs of the external
Hierarchy collaborator for the chosen element; `snapResult` is the outcome of
the external Snapshot collaborator (`some dataUrl` when
`snapdom.toCanvas(...).toDataURL("image/png")` succeeds, `none` when the
capture rejects or throws, in which case the `catch` block logs the error and
`imageDataUrl` stays `undefined`). -/
def handleSelect (hierarchy formatted : String) (snapResult : Option String)
    (el : DomElement) : List ToolbarAction :=
  ToolbarAction.setSelectMode false ::
  ToolbarAction.snapshotStart el ::
  ((match snapResult with
    | some _ => []
    | none => [ToolbarAction.logError]) ++
   [ToolbarAction.postMessage
      ⟨"vly-toolbar-select", getDomSelector el, hierarchy, formatted, snapResult⟩])

def isPostMessage : ToolbarAction → Bool
  | ToolbarAction.postMessage _ => true
  | _ => false

def isSnapshotStart : ToolbarAction → Bool
  | ToolbarAction.snapshotStart _ => true
  | _ => false

/-- A click processed end to end: the Overlay handler `handleClick` resolves the
target, and iff it reports a selection, the controller runs `handleSelect`. -/
def processClick (ignore : List DomElement) (target : Option DomElement)
    (st : OverlaySt) (hierarchy formatted : String) (snapResult : Option String) :
    OverlaySt × List ToolbarAction :=
  let r := handleClick ignore target st
  match r.2 with
  | none => (r.1, [])
  | some el => (r.1, handleSelect hierarchy formatted snapResult el)

/-- Claim C6: for every element with a non-empty id attribute, the Selector
utility returns `#` followed by that id, regardless of the class
attribute or tag name. -/
theorem getDomSelector_id (el : DomElement) (h : el.id ≠ "") :
    getDomSelector el = "#" ++ el.id := by
  simp [getDomSelector, h]
theorem collapseWs_append_nonWs (u v : List Char) (h : ∀ c ∈ u, isWs c = false) :
    collapseWs false (u ++ v) = u ++ collapseWs false v := by
  induction u with
  | nil => rfl
  | cons c u ih =>
    have hc : isWs c = false := h c (List.mem_cons_self _ _)
    simp only [List.cons_append, collapseWs, hc, Bool.false_eq_true, if_false, List.append_eq]
    rw [ih (fun x hx => h x (List.mem_cons_of_mem _ hx))]

theorem collapseWs_true_ws_append (w x : List Char) (h : ∀ c ∈ w, isWs c = true) :
    collapseWs true (w ++ x) = collapseWs true x := by
  induction w with
  | nil => rfl
  | cons c w ih =>
    have hc : isWs c = true := h c (List.mem_cons_self _ _)
    simp only [List.cons_append, collapseWs, hc, if_true, List.append_eq]
    exact ih fun y hy => h y (List.mem_cons_of_mem _ hy)

theorem collapseWs_true_eq_false (x : List Char)
    (h : ∀ c, x.head? = some c → isWs c = false) :
    collapseWs true x = collapseWs false x := by
  cases x with
  | nil => rfl
  | cons c rest =>
    have hc : isWs c = false := h c rfl
    simp [collapseWs, hc]

theorem dropTrailingWs_of_nonWs (u : List Char) (h : ∀ c ∈ u, isWs c = false) :
    dropTrailingWs u = u := by
  have hdw : u.reverse.dropWhile isWs = u.reverse := by
    cases hu : u.reverse with
    | nil => rfl
    | cons c rest =>
      have hcmem : c ∈ u := by
        rw [← List.mem_reverse, hu]; exact List.mem_cons_self _ _
      rw [List.dropWhile_cons, h c hcmem]
      simp
  rw [dropTrailingWs, hdw, List.reverse_reverse]

theorem dropTrailingWs_append_ws (u w : List Char) (h : ∀ c ∈ w, isWs c = true) :
    dropTrailingWs (u ++ w) = dropTrailingWs u := by
  unfold dropTrailingWs
  rw [List.reverse_append, List.dropWhile_append_of_pos (by
    intro a ha
    exact h a (by simpa using ha))]

theorem dropTrailingWs_append (u v : List Char) (h : dropTrailingWs v ≠ []) :
    dropTrailingWs (u ++ v) = u ++ dropTrailingWs v := by
  unfold dropTrailingWs at h ⊢
  rw [List.reverse_append, List.dropWhile_append]
  have hne : (v.reverse.dropWhile isWs).isEmpty = false := by
    cases hv : v.reverse.dropWhile isWs with
    | nil => exact absurd (by rw [hv]; rfl) h
    | cons a l => rfl
  rw [hne]
  simp

theorem dropTrailingWs_cons_nonWs (c : Char) (m : List Char) (h : isWs c = false) :
    dropTrailingWs (c :: m) = c :: dropTrailingWs m := by
  by_cases hm : dropTrailingWs m = []
  · have hall : ∀ x ∈ m, isWs x = true := by
      intro x hx
      have : m.reverse.dropWhile isWs = [] := by
        have := congrArg List.reverse hm
        simpa [dropTrailingWs] using this
      exact List.dropWhile_eq_nil_iff.mp this x (by simpa using hx)
    have h1 : dropTrailingWs ([c] ++ m) = dropTrailingWs [c] := dropTrailingWs_append_ws [c] m hall
    have h2 : dropTrailingWs [c] = [c] := dropTrailingWs_of_nonWs [c] (by
      intro x hx
      have : x = c := by simpa using hx
      rw [this]; exact h)
    rw [hm]
    simpa [h2] using h1
  · simpa using dropTrailingWs_append [c] m hm

theorem wsTokens_cons_ws (c : Char) (rest : List Char) (h : isWs c = true) :
    wsTokens (c :: rest) = wsTokens rest := by
  rw [wsTokens]
  simp [h]

theorem wsTokens_cons_nonWs (c : Char) (rest : List Char) (h : isWs c = false) :
    wsTokens (c :: rest) =
      (c :: rest.takeWhile (fun x => !isWs x)) ::
        wsTokens (rest.dropWhile (fun x => !isWs x)) := by
  rw [wsTokens]
  simp [h]

theorem wsTokens_dropWhile (l : List Char) :
    wsTokens (l.dropWhile isWs) = wsTokens l := by
  induction l with
  | nil => rfl
  | cons c rest ih =>
    by_cases hc : isWs c = true
    · rw [List.dropWhile_cons]
      simp only [hc, if_true]
      rw [ih, wsTokens_cons_ws c rest hc]
    · rw [List.dropWhile_cons]
      simp [hc]

theorem wsTokens_nil : wsTokens [] = [] := by
  rw [wsTokens]

theorem trim_collapse_aux : ∀ (n : Nat) (l : List Char), l.length ≤ n →
    collapseWs false (jsTrim l) = joinDot (wsTokens l) := by
  intro n
  induction n with
  | zero =>
    intro l hl
    have h0 : l = [] := List.length_eq_zero.mp (Nat.le_zero.mp hl)
    subst h0
    rw [wsTokens_nil]
    rfl
  | succ n ih =>
    intro l hl
    cases l with
    | nil =>
      rw [wsTokens_nil]
      rfl
    | cons c rest =>
      have hrlen : rest.length ≤ n := by
        simp only [List.length_cons] at hl
        omega
      by_cases hc : isWs c = true
      · have h1 : jsTrim (c :: rest) = jsTrim rest := by
          unfold jsTrim
          rw [List.dropWhile_cons]
          simp [hc]
        rw [h1, wsTokens_cons_ws c rest hc]
        exact ih rest hrlen
      · have hc' : isWs c = false := by simpa using hc
        have hT : ∀ x ∈ rest.takeWhile (fun x => !isWs x), isWs x = false := by
          intro x hx
          have := List.mem_takeWhile_imp hx
          simpa using this
        have hct : ∀ x ∈ c :: rest.takeWhile (fun x => !isWs x), isWs x = false := by
          intro x hx
          rcases List.mem_cons.mp hx with h | h
          · rw [h]; exact hc'
          · exact hT x h
        have hsplit : rest.takeWhile (fun x => !isWs x) ++ rest.dropWhile (fun x => !isWs x) = rest :=
          List.takeWhile_append_dropWhile _ _
        have hjt : jsTrim (c :: rest) = dropTrailingWs (c :: rest) := by
          unfold jsTrim
          rw [List.dropWhile_cons]
          simp [hc']
        rw [hjt, wsTokens_cons_nonWs c rest hc']
        cases he : (rest.dropWhile (fun x => !isWs x)).dropWhile isWs with
        | nil =>
          have hdall : ∀ x ∈ rest.dropWhile (fun x => !isWs x), isWs x = true :=
            List.dropWhile_eq_nil_iff.mp he
          have h2 : dropTrailingWs (c :: rest) = c :: rest.takeWhile (fun x => !isWs x) := by
            conv_lhs => rw [← hsplit]
            rw [show (c :: (rest.takeWhile (fun x => !isWs x) ++ rest.dropWhile (fun x => !isWs x)))
              = (c :: rest.takeWhile (fun x => !isWs x)) ++ rest.dropWhile (fun x => !isWs x) from rfl]
            rw [dropTrailingWs_append_ws _ _ hdall, dropTrailingWs_of_nonWs _ hct]
          have h3 : wsTokens (rest.dropWhile (fun x => !isWs x)) = [] := by
            rw [← wsTokens_dropWhile (rest.dropWhile (fun x => !isWs x)), he]
            exact wsTokens_nil
          have h4 : collapseWs false (c :: rest.takeWhile (fun x => !isWs x))
              = c :: rest.takeWhile (fun x => !isWs x) := by
            have h5 := collapseWs_append_nonWs (c :: rest.takeWhile (fun x => !isWs x)) [] hct
            simpa [collapseWs] using h5
          rw [h2, h3, h4]
          rfl
        | cons c2 e' =>
          have hc2 : isWs c2 = false := by
            have hw : (rest.dropWhile (fun x => !isWs x)).dropWhile isWs ≠ [] := by
              rw [he]; simp
            have h2 := List.head_dropWhile_not isWs (rest.dropWhile (fun x => !isWs x)) hw
            simp only [he, List.head_cons] at h2
            simpa using h2
          have hDne : rest.dropWhile (fun x => !isWs x) ≠ [] := by
            intro h0
            rw [h0] at he
            simp at he
          obtain ⟨d0, D', hD⟩ : ∃ d0 D', rest.dropWhile (fun x => !isWs x) = d0 :: D' := by
            cases hD : rest.dropWhile (fun x => !isWs x) with
            | nil => exact absurd hD hDne
            | cons a b => exact ⟨a, b, rfl⟩
          have hd0 : isWs d0 = true := by
            have h2 := List.head_dropWhile_not (fun x => !isWs x) rest (by rw [hD]; simp)
            simp only [hD, List.head_cons] at h2
            simpa using h2
          have hW0 : (rest.dropWhile (fun x => !isWs x)).takeWhile isWs ++ (c2 :: e')
              = rest.dropWhile (fun x => !isWs x) := by
            conv_rhs => rw [← List.takeWhile_append_dropWhile isWs (rest.dropWhile (fun x => !isWs x))]
            rw [he]
          have hW0head : (rest.dropWhile (fun x => !isWs x)).takeWhile isWs
              = d0 :: D'.takeWhile isWs := by
            rw [hD, List.takeWhile_cons]
            simp [hd0]
          have htau : dropTrailingWs (c2 :: e') = c2 :: dropTrailingWs e' :=
            dropTrailingWs_cons_nonWs c2 e' hc2
          have hcr : c :: rest = ((c :: rest.takeWhile (fun x => !isWs x))
              ++ (rest.dropWhile (fun x => !isWs x)).takeWhile isWs) ++ (c2 :: e') := by
            conv_lhs => rw [← hsplit, ← hW0]
            simp [List.append_assoc]
          have hne2 : dropTrailingWs (c2 :: e') ≠ [] := by
            rw [htau]; simp
          have hL1 : dropTrailingWs (c :: rest) = ((c :: rest.takeWhile (fun x => !isWs x))
              ++ (rest.dropWhile (fun x => !isWs x)).takeWhile isWs) ++ (c2 :: dropTrailingWs e') := by
            rw [hcr, dropTrailingWs_append _ _ hne2, htau]
          have hL2 : collapseWs false (((c :: rest.takeWhile (fun x => !isWs x))
              ++ (rest.dropWhile (fun x => !isWs x)).takeWhile isWs) ++ (c2 :: dropTrailingWs e'))
              = (c :: rest.takeWhile (fun x => !isWs x))
                ++ ('.' :: collapseWs false (dropTrailingWs (c2 :: e'))) := by
            rw [List.append_assoc, collapseWs_append_nonWs _ _ hct]
            congr 1
            rw [hW0head, List.cons_append]
            simp only [collapseWs, hd0, if_true, Bool.false_eq_true, if_false]
            rw [collapseWs_true_ws_append _ _ (fun x hx => List.mem_takeWhile_imp hx)]
            rw [collapseWs_true_eq_false _ (by
              intro a ha
              have h6 : c2 = a := by simpa using ha
              rw [← h6]; exact hc2)]
            rw [htau]
          have hR : wsTokens (rest.dropWhile (fun x => !isWs x)) = wsTokens (c2 :: e') := by
            rw [← wsTokens_dropWhile (rest.dropWhile (fun x => !isWs x)), he]
          have hjoin : joinDot ((c :: rest.takeWhile (fun x => !isWs x)) :: wsTokens (c2 :: e'))
              = (c :: rest.takeWhile (fun x => !isWs x)) ++ '.' :: joinDot (wsTokens (c2 :: e')) := by
            rw [wsTokens_cons_nonWs c2 e' hc2]
            rfl
          have hjt2 : jsTrim (c2 :: e') = dropTrailingWs (c2 :: e') := by
            unfold jsTrim
            rw [List.dropWhile_cons]
            simp [hc2]
          have hlen2 : (c2 :: e').length ≤ n := by
            have l1 : (c2 :: e').length ≤ (rest.dropWhile (fun x => !isWs x)).length := by
              rw [← he]
              exact (List.dropWhile_suffix _).sublist.length_le
            have l2 : (rest.dropWhile (fun x => !isWs x)).length ≤ rest.length :=
              (List.dropWhile_suffix _).sublist.length_le
            omega
          have hIH := ih (c2 :: e') hlen2
          rw [hL1, hL2, hR, hjoin, ← hjt2, hIH]

theorem collapseWs_jsTrim_eq_joinDot (l : List Char) :
    collapseWs false (jsTrim l) = joinDot (wsTokens l) :=
  trim_collapse_aux l.length l (Nat.le_refl _)

theorem wsTokens_wf : ∀ (n : Nat) (l : List Char), l.length ≤ n →
    ∀ t ∈ wsTokens l, t ≠ [] ∧ ∀ c ∈ t, isWs c = false := by
  intro n
  induction n with
  | zero =>
    intro l hl
    have h0 : l = [] := List.length_eq_zero.mp (Nat.le_zero.mp hl)
    subst h0
    rw [wsTokens_nil]
    intro t ht
    simp at ht
  | succ n ih =>
    intro l hl t ht
    cases l with
    | nil =>
      rw [wsTokens_nil] at ht
      simp at ht
    | cons c rest =>
      have hrlen : rest.length ≤ n := by
        simp only [List.length_cons] at hl
        omega
      by_cases hc : isWs c = true
      · rw [wsTokens_cons_ws c rest hc] at ht
        exact ih rest hrlen t ht
      · have hc' : isWs c = false := by simpa using hc
        rw [wsTokens_cons_nonWs c rest hc'] at ht
        rcases List.mem_cons.mp ht with h | h
        · subst h
          refine ⟨by simp, ?_⟩
          intro x hx
          rcases List.mem_cons.mp hx with h1 | h1
          · rw [h1]; exact hc'
          · have := List.mem_takeWhile_imp h1
            simpa using this
        · have h7 : rest.dropWhile (fun x => !isWs x) <:+ rest := List.dropWhile_suffix _
          have h8 := h7.sublist.length_le
          exact ih _ (by omega) t h

/-- Claim C4: for every element with no id but a non-empty string `className`,
`getDomSelector` returns the lowercase tag name followed by `.` and the
whitespace-separated class tokens joined by `.`, with the tokens in their
original order (the spec-side `specClassSelector` builds the selector from the
token list directly) and no empty tokens, however irregular the whitespace. -/
theorem getDomSelector_class_tokens (el : DomElement) (s : String)
    (hid : el.id = "") (hcls : el.className = ClassNameVal.strVal s) (hne : s ≠ "") :
    getDomSelector el = specClassSelector el.tagName s ∧
      ∀ t ∈ wsTokens s.data, t ≠ [] ∧ ∀ c ∈ t, isWs c = false := by
  constructor
  · simp [getDomSelector, hid, hcls, hne, specClassSelector, collapseWs_jsTrim_eq_joinDot]
  · exact fun t ht => wsTokens_wf s.data.length s.data (Nat.le_refl _) t ht

/-- Witness for C4 at a concrete element with irregular class whitespace. -/
theorem getDomSelector_class_tokens_witness :
    ((⟨0, "", "DIV", ClassNameVal.strVal " foo   bar "⟩ : DomElement).id = ""
        ∧ (" foo   bar " : String) ≠ "") ∧
      (getDomSelector ⟨0, "", "DIV", ClassNameVal.strVal " foo   bar "⟩
          = specClassSelector "DIV" " foo   bar " ∧
        ∀ t ∈ wsTokens " foo   bar ".data, t ≠ [] ∧ ∀ c ∈ t, isWs c = false) :=
  ⟨⟨rfl, by decide⟩,
    getDomSelector_class_tokens ⟨0, "", "DIV", ClassNameVal.strVal " foo   bar "⟩
      " foo   bar " rfl rfl (by decide)⟩

/-- Witness for C6 at a concrete element carrying both an id and classes. -/
theorem getDomSelector_id_witness :
    ((⟨1, "save", "BUTTON", ClassNameVal.strVal "btn primary"⟩ : DomElement).id ≠ "") ∧
      getDomSelector ⟨1, "save", "BUTTON", ClassNameVal.strVal "btn primary"⟩ = "#" ++ "save" :=
  ⟨by decide,
    getDomSelector_id ⟨1, "save", "BUTTON", ClassNameVal.strVal "btn primary"⟩ (by decide)⟩

/-- Claim C10: for every element whose `className` is not a string (for example
an SVG element), `getDomSelector` skips the class branch entirely and returns
the lowercase tag name alone, even with no id. -/
theorem getDomSelector_nonstring_className (el : DomElement)
    (hid : el.id = "") (hcls : el.className = ClassNameVal.objVal) :
    getDomSelector el = el.tagName.toLower := by
  simp [getDomSelector, hid, hcls]

/-- Witness for C10 at a concrete SVG-like element. -/
theorem getDomSelector_nonstring_className_witness :
    ((⟨2, "", "SVG", ClassNameVal.objVal⟩ : DomElement).id = "") ∧
      getDomSelector ⟨2, "", "SVG", ClassNameVal.objVal⟩ = ("SVG" : String).toLower :=
  ⟨rfl, getDomSelector_nonstring_className ⟨2, "", "SVG", ClassNameVal.objVal⟩ rfl rfl⟩

theorem handleMouseMove_inv (sm : Bool) (ig : List DomElement) (t : Option DomElement)
    (st : OverlaySt) (h : st.highlights = optList st.lastHovered) :
    (handleMouseMove sm ig t st).1.highlights
      = optList (handleMouseMove sm ig t st).1.lastHovered := by
  cases sm with
  | false => simpa [handleMouseMove] using h
  | true =>
    cases t with
    | none => simpa [handleMouseMove] using h
    | some el =>
      by_cases hmem : el ∈ ig
      · simpa [handleMouseMove, hmem] using h
      · by_cases hlast : st.lastHovered = some el
        · simpa [handleMouseMove, hmem, hlast] using h
        · have hrp : removePrevHighlight st = [] := by
            cases hprev : st.lastHovered with
            | none => simp [removePrevHighlight, hprev, h, optList]
            | some p => simp [removePrevHighlight, hprev, h, optList, classRemove]
          simp [handleMouseMove, hmem, hlast, hrp, classAdd, optList]

theorem handleMouseMove_emit (sm : Bool) (ig : List DomElement) (t : Option DomElement)
    (st : OverlaySt) :
    ((handleMouseMove sm ig t st).2 = []
        ∧ (handleMouseMove sm ig t st).1.lastHovered = st.lastHovered)
      ∨ ∃ e, (handleMouseMove sm ig t st).2 = [e]
        ∧ (handleMouseMove sm ig t st).1.lastHovered = some e := by
  cases sm with
  | false => exact Or.inl ⟨rfl, rfl⟩
  | true =>
    cases t with
    | none => exact Or.inl ⟨rfl, rfl⟩
    | some el =>
      by_cases hmem : el ∈ ig
      · exact Or.inl ⟨by simp [handleMouseMove, hmem], by simp [handleMouseMove, hmem]⟩
      · by_cases hlast : st.lastHovered = some el
        · exact Or.inl ⟨by simp [handleMouseMove, hmem, hlast], by simp [handleMouseMove, hmem, hlast]⟩
        · exact Or.inr ⟨el, by simp [handleMouseMove, hmem, hlast], by simp [handleMouseMove, hmem, hlast]⟩

theorem getLast?_append_or (a b : List DomElement) :
    (a ++ b).getLast? = b.getLast?.or a.getLast? := by
  cases b with
  | nil => simp
  | cons y ys =>
    rw [List.getLast?_append_of_ne_nil a (List.cons_ne_nil y ys)]
    cases hx : (y :: ys).getLast? with
    | none => simp at hx
    | some x => simp

theorem runMoves_inv (sm : Bool) (ig : List DomElement) :
    ∀ (evs : List (Option DomElement)) (st : OverlaySt),
    st.highlights = optList st.lastHovered →
    (runMoves sm ig evs st).1.highlights = optList (runMoves sm ig evs st).1.lastHovered ∧
    (runMoves sm ig evs st).1.lastHovered
      = ((runMoves sm ig evs st).2.getLast?).or st.lastHovered := by
  intro evs
  induction evs with
  | nil => exact fun st h => ⟨h, rfl⟩
  | cons t ts ih =>
    intro st h
    have h1 := handleMouseMove_inv sm ig t st h
    have h2 := ih (handleMouseMove sm ig t st).1 h1
    have h3 := handleMouseMove_emit sm ig t st
    refine ⟨by simpa [runMoves] using h2.1, ?_⟩
    simp only [runMoves]
    rw [getLast?_append_or, h2.2]
    rcases h3 with ⟨he, hlast⟩ | ⟨e, he, hlast⟩
    · rw [he, hlast]
      simp
    · rw [he, hlast]
      cases (runMoves sm ig ts (handleMouseMove sm ig t st).1).2.getLast? <;> simp

/-- Claim C5: starting from a freshly mounted Overlay, after any sequence of
pointer-move events the set of elements carrying the highlight marker is
exactly the singleton of the last element reported via `onHover` (empty when
none was reported), and in particular at most one element carries the marker.
Since the event list is arbitrary, this covers every instant of a Picking
session; the per-step definition removes the marker from the previous element
before adding it to the new one. -/
theorem hover_marker_unique_and_last (sm : Bool) (ig : List DomElement)
    (evs : List (Option DomElement)) :
    (runMoves sm ig evs mountOverlaySt).1.highlights
        = optList (runMoves sm ig evs mountOverlaySt).2.getLast? ∧
      (runMoves sm ig evs mountOverlaySt).1.highlights.length ≤ 1 := by
  have h := runMoves_inv sm ig evs mountOverlaySt rfl
  constructor
  · rw [h.1, h.2]
    simp [mountOverlaySt]
  · rw [h.1]
    cases (runMoves sm ig evs mountOverlaySt).1.lastHovered <;> simp [optList]

/-- Claim C8: a pointer-move whose resolved target is null or a member of the
ignore list leaves the hovered-element reference, the highlight markers and
the hover-notification state untouched, and emits no notification. -/
theorem handleMouseMove_ignored_noop (sm : Bool) (ig : List DomElement)
    (t : Option DomElement) (st : OverlaySt)
    (h : t = none ∨ ∃ e, t = some e ∧ e ∈ ig) :
    handleMouseMove sm ig t st = (st, []) := by
  rcases h with h | ⟨e, ht, hmem⟩
  · subst h
    cases sm <;> simp [handleMouseMove]
  · subst ht
    cases sm <;> simp [handleMouseMove, hmem]

/-- Witness for C8: moving over the ignored element itself is a no-op. -/
theorem handleMouseMove_ignored_noop_witness :
    ((some (⟨5, "", "DIV", ClassNameVal.strVal ""⟩ : DomElement) = none
        ∨ ∃ e, some (⟨5, "", "DIV", ClassNameVal.strVal ""⟩ : DomElement) = some e
          ∧ e ∈ [(⟨5, "", "DIV", ClassNameVal.strVal ""⟩ : DomElement)])) ∧
      handleMouseMove true [⟨5, "", "DIV", ClassNameVal.strVal ""⟩]
          (some ⟨5, "", "DIV", ClassNameVal.strVal ""⟩) ⟨none, []⟩ = (⟨none, []⟩, []) :=
  ⟨Or.inr ⟨⟨5, "", "DIV", ClassNameVal.strVal ""⟩, rfl, by decide⟩,
    handleMouseMove_ignored_noop true [⟨5, "", "DIV", ClassNameVal.strVal ""⟩]
      (some ⟨5, "", "DIV", ClassNameVal.strVal ""⟩) ⟨none, []⟩
      (Or.inr ⟨⟨5, "", "DIV", ClassNameVal.strVal ""⟩, rfl, by decide⟩)⟩

/-- Claim C9: an inbound message lacking the recognized type tag changes
neither the selection-mode flag nor the Overlay mounting; a message carrying
the tag sets the flag from the truthiness of its `enabled` field. -/
theorem handleMessage_unrecognized_noop (m : MsgData) (sm : Bool)
    (h : ∀ t en, m = MsgData.obj t en → t ≠ "vly-set-selection-mode") :
    handleMessage m sm = sm ∧
      overlayMounted (handleMessage m sm) = overlayMounted sm ∧
      ∀ en sm2, handleMessage (MsgData.obj "vly-set-selection-mode" en) sm2 = en := by
  have h1 : handleMessage m sm = sm := by
    cases m with
    | null => rfl
    | obj t en => simp [handleMessage, h t en rfl]
  exact ⟨h1, by rw [h1], fun en sm2 => by simp [handleMessage]⟩

/-- Witness for C9 at a message with an unrecognized tag. -/
theorem handleMessage_unrecognized_noop_witness :
    (∀ t en, MsgData.obj "vly-other" true = MsgData.obj t en
        → t ≠ "vly-set-selection-mode") ∧
      (handleMessage (MsgData.obj "vly-other" true) true = true ∧
        overlayMounted (handleMessage (MsgData.obj "vly-other" true) true)
          = overlayMounted true ∧
        ∀ en sm2, handleMessage (MsgData.obj "vly-set-selection-mode" en) sm2 = en) :=
  ⟨by intro t en h; cases h; decide,
    handleMessage_unrecognized_noop (MsgData.obj "vly-other" true) true
      (by intro t en h; cases h; decide)⟩

theorem runMessages_doc (ms : List MsgData) : ∀ st : ControllerState,
    (runMessages st ms).doc = st.doc := by
  induction ms with
  | nil => exact fun st => rfl
  | cons m ms ih =>
    intro st
    show (runMessages (receiveMessage st m) ms).doc = st.doc
    rw [ih (receiveMessage st m)]
    rfl

/-- Claim C7: inserting the global highlight style is idempotent.  Starting
from a document without the style, a mounted toolbar followed by any number of
inbound messages (in particular repeated enable messages) leaves exactly one
style element with the fixed identifier `vly-toolbar-style`; and reapplying
`injectHighlightStyle` never duplicates it. -/
theorem injectHighlightStyle_idempotent (d : Doc) (ms : List MsgData)
    (h : "vly-toolbar-style" ∉ d.styleIds) :
    (runMessages (mountToolbar ⟨false, d⟩) ms).doc.styleIds.count "vly-toolbar-style" = 1 ∧
      ∀ d2 : Doc, injectHighlightStyle (injectHighlightStyle d2) = injectHighlightStyle d2 := by
  constructor
  · rw [runMessages_doc]
    show (injectHighlightStyle d).styleIds.count _ = 1
    rw [injectHighlightStyle, if_neg h]
    rw [List.count_append]
    rw [List.count_eq_zero.mpr h]
    rfl
  · intro d2
    by_cases h2 : "vly-toolbar-style" ∈ d2.styleIds
    · simp [injectHighlightStyle, h2]
    · simp [injectHighlightStyle, h2]

/-- Witness for C7: a fresh document followed by two enable messages. -/
theorem injectHighlightStyle_idempotent_witness :
    ("vly-toolbar-style" ∉ (⟨[]⟩ : Doc).styleIds) ∧
      ((runMessages (mountToolbar ⟨false, ⟨[]⟩⟩)
          [MsgData.obj "vly-set-selection-mode" true,
           MsgData.obj "vly-set-selection-mode" true]).doc.styleIds.count
            "vly-toolbar-style" = 1 ∧
        ∀ d2 : Doc, injectHighlightStyle (injectHighlightStyle d2) = injectHighlightStyle d2) :=
  ⟨by decide,
    injectHighlightStyle_idempotent ⟨[]⟩
      [MsgData.obj "vly-set-selection-mode" true,
       MsgData.obj "vly-set-selection-mode" true] (by decide)⟩

/-- Claim C2: when the snapshot capture fails (`snapResult = none`), the
selection sequence still completes: the trace contains exactly one outbound
message, it is the final action, its selector and hierarchy fields are
populated, and its image field is absent. -/
theorem handleSelect_snapshot_failure_still_posts (hierarchy formatted : String)
    (el : DomElement) :
    (handleSelect hierarchy formatted none el).countP isPostMessage = 1 ∧
      (handleSelect hierarchy formatted none el).getLast?
        = some (ToolbarAction.postMessage
            ⟨"vly-toolbar-select", getDomSelector el, hierarchy, formatted, none⟩) :=
  ⟨rfl, rfl⟩

/-- Claim C3: for every completed (non-aborted) click, the first action of
the trace is the synchronous transition to Idle (`setSelectMode false`, which
unmounts the Overlay since it is mounted iff the flag is set), occurring
before the asynchronous snapshot work and before the outbound message; and
exactly one outbound message and one snapshot attempt occur. -/
theorem click_transitions_idle_before_post (ig : List DomElement) (t : Option DomElement)
    (st : OverlaySt) (hierarchy formatted : String) (snap : Option String) (el : DomElement)
    (h : (handleClick ig t st).2 = some el) :
    (processClick ig t st hierarchy formatted snap).2.head?
        = some (ToolbarAction.setSelectMode false) ∧
      (processClick ig t st hierarchy formatted snap).2.countP isPostMessage = 1 ∧
      (processClick ig t st hierarchy formatted snap).2.countP isSnapshotStart = 1 := by
  simp only [processClick, h]
  refine ⟨rfl, ?_, ?_⟩ <;> cases snap <;> rfl

/-- Witness for C3 at a concrete completed click. -/
theorem click_transitions_idle_before_post_witness :
    ((handleClick [] (some ⟨3, "save", "BUTTON", ClassNameVal.strVal ""⟩)
        ⟨none, []⟩).2 = some ⟨3, "save", "BUTTON", ClassNameVal.strVal ""⟩) ∧
      ((processClick [] (some ⟨3, "save", "BUTTON", ClassNameVal.strVal ""⟩)
            ⟨none, []⟩ "App > Button" "App\n  Button" none).2.head?
          = some (ToolbarAction.setSelectMode false) ∧
        (processClick [] (some ⟨3, "save", "BUTTON", ClassNameVal.strVal ""⟩)
            ⟨none, []⟩ "App > Button" "App\n  Button" none).2.countP isPostMessage = 1 ∧
        (processClick [] (some ⟨3, "save", "BUTTON", ClassNameVal.strVal ""⟩)
            ⟨none, []⟩ "App > Button" "App\n  Button" none).2.countP isSnapshotStart = 1) :=
  ⟨by decide,
    click_transitions_idle_before_post [] (some ⟨3, "save", "BUTTON", ClassNameVal.strVal ""⟩)
      ⟨none, []⟩ "App > Button" "App\n  Button" none
      ⟨3, "save", "BUTTON", ClassNameVal.strVal ""⟩ (by decide)⟩

/-- Claim C1 (refuted by the code): the ignore list the mounted toolbar uses
is empty, so the toolbar root container is never a member, contrary to the
claim that it always contains the root whenever the container is mounted.
The memo body would include the root, but it runs once, during the initial
render, while `toolbarRef.current` is still null. -/
theorem ignoreList_empty_at_mount :
    mountedIgnoreList = [] ∧ ∀ e : DomElement, e ∉ mountedIgnoreList := by
  refine ⟨rfl, ?_⟩
  intro e he
  simp [mountedIgnoreList, ignoreList] at he
